import Mathlib

/-!
Verification of the watering schedule engine of `water.py`.

Times are modelled as natural numbers of seconds since an epoch.
`dateOf t = t / 86400` is the calendar day, matching Python's
`datetime.date()`; `combine d tod = d * 86400 + tod` matches
`datetime.combine(date, time)`.  Comparison of Python `datetime` values
coincides with comparison of their second counts.
-/

/-- Seconds per day. -/
def secPerDay : Nat := 86400

/-- The calendar date of `t`, i.e. Python `t.date()`, for `t` in seconds since the epoch. -/
def dateOf (t : Nat) : Nat := t / secPerDay

/-- Python `datetime.combine(d, tod)`: day number `d` with time-of-day `tod` seconds. -/
def combine (d tod : Nat) : Nat := d * secPerDay + tod

/-- One configuration entry of `config["watering_schedule"]`.
`start_time` (seconds of day) doubles as the entry's identity, as the
`HH:MM` string does in the source. `interval` is `entry.get("interval", 1)`
with the default already applied. -/
structure ScheduleEntry where
  start_time : Nat
  duration : Nat
  interval : Nat
  deriving Repr, DecidableEq

/-- The parsed `last_watered` dictionary: association list from entry id
(start-of-day seconds) to the stored timestamp (seconds since epoch). -/
abbrev LastWatered := List (Nat × Nat)

/-- Dictionary lookup `d.get(k)` on the `last_watered` dictionary. -/
def lwGet (m : LastWatered) (k : Nat) : Option Nat :=
  match m with
  | [] => none
  | (k', v) :: rest => if k' = k then some v else lwGet rest k

/-- Dictionary item assignment `d[k] = v` on the `last_watered` dictionary. -/
def lwSet (m : LastWatered) (k v : Nat) : LastWatered :=
  match m with
  | [] => [(k, v)]
  | (k', v') :: rest => if k' = k then (k, v) :: rest else (k', v') :: lwSet rest k v

/-- The value found at key `"last_watered"` of the Python state dict:
the key may be absent, may hold `None` (as `load_state` produces on a
missing or unreadable file), or may hold a dictionary. -/
inductive LWField where
  | absent : LWField
  | null : LWField
  | map (m : LastWatered) : LWField
  deriving Repr, DecidableEq

/-- The in-memory state dict.  `extra` stands for every key of the JSON
record other than `"last_watered"`, which the engine never touches. -/
structure PState where
  last_watered : LWField
  extra : List (String × String)
  deriving Repr, DecidableEq

/-- How the persisted state file can present itself to `load_state`. -/
inductive StateFile where
  | absent : StateFile
  | unreadable : StateFile
  | content (st : PState) : StateFile
  deriving Repr, DecidableEq

/-- Python `load_state`: a missing or unreadable file yields
`{"last_watered": None}`; otherwise the parsed record. -/
def load_state : StateFile → PState
  | .absent => ⟨.null, []⟩
  | .unreadable => ⟨.null, []⟩
  | .content st => st

/-- The preamble `if "last_watered" not in state: state["last_watered"] = \x7b\x7d`
(the preamble of `water_plants`).  Note it fires only when the key is
absent, not when it holds `None`. -/
def ensureLastWatered (st : PState) : PState :=
  match st.last_watered with
  | .absent => { st with last_watered := .map [] }
  | _ => st

/-- The lookup `state.get("last_watered", \x7b\x7d).get(start_time)`.
When the key holds `None`, Python raises `AttributeError`
(`None.get`), modelled as `.error ()`. -/
def getLastWatered (st : PState) (k : Nat) : Except Unit (Option Nat) :=
  match st.last_watered with
  | .absent => .ok none
  | .null => .error ()
  | .map m => .ok (lwGet m k)

/-- The update `state.setdefault("last_watered", \x7b\x7d)[start_time] = v`.
With the key holding `None`, `setdefault` returns `None` and the item
assignment raises `TypeError`, modelled as `.error ()`. -/
def setLastWatered (st : PState) (k v : Nat) : Except Unit PState :=
  match st.last_watered with
  | .absent => .ok { st with last_watered := .map (lwSet [] k v) }
  | .null => .error ()
  | .map m => .ok { st with last_watered := .map (lwSet m k v) }

/-- Observable events of one engine run, in program order. -/
inductive Event where
  | captureBefore (id : Nat) (ok : Bool) : Event
  | pumpOn : Event
  | sleep (d : Nat) : Event
  | pumpOff : Event
  | captureAfter (id : Nat) (ok : Bool) : Event
  | stateWrite (id t : Nat) : Event
  | save : Event
  deriving Repr, DecidableEq

/-- Fault model for the external calls of one run: whether `pump.on()`
returns normally, whether `pump.off()` returns normally, and whether the
image-capture subprocess succeeds (its failure is caught inside
`capture_image`, which then returns `None`). -/
structure Actuator where
  onOk : Bool
  offOk : Bool
  capOk : Bool
  deriving Repr, DecidableEq

/-- The all-good fault model. -/
def happy : Actuator := ⟨true, true, true⟩

/-- One iteration of the per-entry loop shared verbatim between
`water_plants` (lines 149-186, `hooks = false`: the capture calls are
commented out there) and the catch-up block of `main` (lines 218-255,
`hooks = true`).  Returns the emitted events, the state as left in
memory, and whether an exception escaped the iteration. -/
def processEntry (act : Actuator) (hooks : Bool) (now : Nat)
    (e : ScheduleEntry) (st : PState) : List Event × PState × Bool :=
  let scheduled := combine (dateOf now) e.start_time
  match getLastWatered st e.start_time with
  | .error _ => ([], st, true)
  | .ok olw =>
    let skip : Bool :=
      match olw with
      | none => false
      | some l => decide (dateOf now < dateOf l + e.interval) || decide (scheduled ≤ l)
    if skip then ([], st, false)
    else if scheduled ≤ now then
      let pre := if hooks then [Event.captureBefore e.start_time act.capOk] else []
      if act.onOk = false then (pre, st, true)
      else
        let ev1 := pre ++ [Event.pumpOn, Event.sleep e.duration]
        if act.offOk = false then (ev1, st, true)
        else
          let ev2 := ev1 ++ [Event.pumpOff]
            ++ (if hooks then [Event.captureAfter e.start_time act.capOk] else [])
          match setLastWatered st e.start_time scheduled with
          | .error _ => (ev2, st, true)
          | .ok st' =>
            (ev2 ++ [Event.stateWrite e.start_time scheduled, Event.save], st', false)
    else ([], st, false)

/-- The `for entry in schedule_data:` loop threading the mutable state;
an escaping exception aborts the remaining iterations. -/
def runEntries (act : Actuator) (hooks : Bool) (now : Nat)
    (es : List ScheduleEntry) (st : PState) : List Event × PState × Bool :=
  match es with
  | [] => ([], st, false)
  | e :: rest =>
    let r := processEntry act hooks now e st
    if r.2.2 then r
    else
      let r2 := runEntries act hooks now rest r.2.1
      (r.1 ++ r2.1, r2.2)

/-- The steady-state pass `water_plants(config, state, image_directory)`. -/
def water_plants (act : Actuator) (now : Nat) (cfg : List ScheduleEntry)
    (st : PState) : List Event × PState × Bool :=
  runEntries act false now cfg (ensureLastWatered st)

/-- The startup catch-up block of `main` (lines 214-255); it has no
`"last_watered" not in state` guard and does invoke the capture hooks. -/
def catchUp (act : Actuator) (now : Nat) (cfg : List ScheduleEntry)
    (st : PState) : List Event × PState × Bool :=
  runEntries act true now cfg st

/-- From `setup_schedule`: for each entry, a daily job is armed at that entry's
`start_time`; its callback is `water_plants(config, state, ...)` — the
armed entry itself is not passed to the callback. -/
def scheduledJob (act : Actuator) (armed : ScheduleEntry) (now : Nat)
    (cfg : List ScheduleEntry) (st : PState) : List Event × PState × Bool :=
  water_plants act now cfg st

/-- The due predicate exactly as §3 of the specification words it:
`scheduled_datetime <= now`; `last_watered` absent or
`scheduled_datetime > last_watered`; and when present,
`date(last_watered) + interval_days <= today`. -/
def dueSpec (now : Nat) (e : ScheduleEntry) (m : LastWatered) : Bool :=
  let scheduled := combine (dateOf now) e.start_time
  decide (scheduled ≤ now) &&
    match lwGet m e.start_time with
    | none => true
    | some l => decide (l < scheduled) && decide (dateOf l + e.interval ≤ dateOf now)

/-- The `(id, timestamp)` pairs recorded by `stateWrite` events, in order. -/
def writeLog (evs : List Event) : List (Nat × Nat) :=
  match evs with
  | [] => []
  | Event.stateWrite id t :: rest => (id, t) :: writeLog rest
  | _ :: rest => writeLog rest

/-- Selects `stateWrite` events. -/
def isWrite : Event → Bool
  | Event.stateWrite _ _ => true
  | _ => false

/-- Selects `pumpOff` events. -/
def isOff : Event → Bool
  | Event.pumpOff => true
  | _ => false

/-- Selects `pumpOn` events. -/
def isOn : Event → Bool
  | Event.pumpOn => true
  | _ => false

/-- Whether a run actuated the pump at least once. -/
def actuated (evs : List Event) : Bool := evs.any isOn

/-- Whether a trace mentions any capture hook. -/
def hasCapture (evs : List Event) : Bool :=
  evs.any fun ev =>
    match ev with
    | Event.captureBefore _ _ => true
    | Event.captureAfter _ _ => true
    | _ => false

/-- Deactivation precedes every recorded completion: within every prefix of
the trace, the `stateWrite` events are no more numerous than the `pumpOff`
events, so each write is covered by an earlier pump-off. -/
def offBeforeWrite (evs : List Event) : Prop :=
  ∀ p q : List Event, evs = p ++ q → p.countP isWrite ≤ p.countP isOff

/-! ### Dictionary lemmas -/

theorem lwGet_lwSet_self (m : LastWatered) (k v : Nat) :
    lwGet (lwSet m k v) k = some v := by
  induction m with
  | nil => simp [lwGet, lwSet]
  | cons hd tl ih =>
    obtain ⟨k', v'⟩ := hd
    by_cases h : k' = k <;> simp [lwGet, lwSet, h, ih]

theorem lwGet_lwSet_ne (m : LastWatered) (k v k' : Nat) (h : k ≠ k') :
    lwGet (lwSet m k v) k' = lwGet m k' := by
  induction m with
  | nil => simp [lwGet, lwSet, h]
  | cons hd tl ih =>
    obtain ⟨a, b⟩ := hd
    by_cases ha : a = k
    · subst ha
      simp [lwGet, lwSet, h]
    · simp [lwGet, lwSet, ha, ih]

theorem dueSpec_congr (now : Nat) (e : ScheduleEntry) (m₁ m₂ : LastWatered)
    (h : lwGet m₁ e.start_time = lwGet m₂ e.start_time) :
    dueSpec now e m₁ = dueSpec now e m₂ := by
  unfold dueSpec
  rw [h]

/-! ### Characterization of one loop iteration on a well-formed state -/

theorem processEntry_good (cap hooks : Bool) (now : Nat) (e : ScheduleEntry)
    (m : LastWatered) (ex : List (String × String)) :
    processEntry ⟨true, true, cap⟩ hooks now e ⟨.map m, ex⟩ =
      if dueSpec now e m then
        ((if hooks then [Event.captureBefore e.start_time cap] else [])
          ++ [Event.pumpOn, Event.sleep e.duration, Event.pumpOff]
          ++ (if hooks then [Event.captureAfter e.start_time cap] else [])
          ++ [Event.stateWrite e.start_time (combine (dateOf now) e.start_time),
              Event.save],
         ⟨.map (lwSet m e.start_time (combine (dateOf now) e.start_time)), ex⟩, false)
      else ([], ⟨.map m, ex⟩, false) := by
  unfold processEntry getLastWatered setLastWatered dueSpec
  cases h : lwGet m e.start_time with
  | none =>
    by_cases hle : combine (dateOf now) e.start_time ≤ now <;>
      simp [h, hle]
  | some l =>
    by_cases h1 : dateOf now < dateOf l + e.interval <;>
    by_cases h2 : combine (dateOf now) e.start_time ≤ l <;>
    by_cases h3 : combine (dateOf now) e.start_time ≤ now <;>
      simp [h, h1, h2, h3, Nat.not_le.symm, Nat.not_lt.symm]

theorem writeLog_append (a b : List Event) :
    writeLog (a ++ b) = writeLog a ++ writeLog b := by
  induction a with
  | nil => simp [writeLog]
  | cons hd tl ih => cases hd <;> simp [writeLog, ih]

/-- On a well-formed state whose entry ids are pairwise distinct, a full
pass writes exactly one record per due entry, in configuration order,
each carrying that day's nominal scheduled time; it turns the pump on
once per due entry and raises no exception. -/
theorem runEntries_good (cap hooks : Bool) (now : Nat) :
    ∀ (es : List ScheduleEntry) (m : LastWatered) (ex : List (String × String)),
    (es.map (·.start_time)).Nodup →
    writeLog (runEntries ⟨true, true, cap⟩ hooks now es ⟨.map m, ex⟩).1 =
      (es.filter (fun e => dueSpec now e m)).map
        (fun e => (e.start_time, combine (dateOf now) e.start_time)) ∧
    (runEntries ⟨true, true, cap⟩ hooks now es ⟨.map m, ex⟩).1.countP isOn =
      (es.filter (fun e => dueSpec now e m)).length ∧
    (runEntries ⟨true, true, cap⟩ hooks now es ⟨.map m, ex⟩).2.2 = false := by
  intro es
  induction es with
  | nil => intro m ex _; simp [runEntries, writeLog]
  | cons e rest ih =>
    intro m ex hnd
    rw [List.map_cons, List.nodup_cons] at hnd
    obtain ⟨hid, hndr⟩ := hnd
    have hfc : rest.filter (fun e' => dueSpec now e'
        (lwSet m e.start_time (combine (dateOf now) e.start_time))) =
        rest.filter (fun e' => dueSpec now e' m) := by
      apply List.filter_congr
      intro e' he'
      apply dueSpec_congr
      apply lwGet_lwSet_ne
      intro hcontra
      exact hid (hcontra ▸ List.mem_map_of_mem (·.start_time) he')
    by_cases hdue : dueSpec now e m = true
    · have ihm := ih (lwSet m e.start_time (combine (dateOf now) e.start_time)) ex hndr
      rw [hfc] at ihm
      obtain ⟨ih1, ih2, ih3⟩ := ihm
      cases hooks <;>
        simp [runEntries, processEntry_good, hdue, writeLog_append, writeLog,
          List.countP_append, isOn, ih1, ih2, ih3, List.filter_cons, Nat.add_comm]
    · have ihm := ih m ex hndr
      obtain ⟨ih1, ih2, ih3⟩ := ihm
      simp [runEntries, processEntry_good, hdue, writeLog, ih1, ih2, ih3,
        List.filter_cons]

/-! ### Trace-ordering lemmas for the deactivate-before-record invariant -/

theorem offBeforeWrite_append {a b : List Event}
    (ha : offBeforeWrite a) (hb : offBeforeWrite b) :
    offBeforeWrite (a ++ b) := by
  intro p q h
  rcases List.append_eq_append_iff.mp h with ⟨r, hp, hq⟩ | ⟨r, hp, hq⟩
  · subst hp
    have h1 : List.countP isWrite a ≤ List.countP isOff a := ha a [] (by simp)
    have h2 : List.countP isWrite r ≤ List.countP isOff r := hb r q hq
    simp only [List.countP_append]
    omega
  · exact ha p r hp
theorem offBeforeWrite_of_no_writes {evs : List Event}
    (h : List.countP isWrite evs = 0) : offBeforeWrite evs := by
  intro p q hpq
  have : List.countP isWrite p + List.countP isWrite q = 0 := by
    rw [← List.countP_append, ← hpq, h]
  omega

theorem offBeforeWrite_one_write {A : List Event}
    (hA : List.countP isWrite A = 0) (hoff : 1 ≤ List.countP isOff A)
    (i t : Nat) :
    offBeforeWrite (A ++ [Event.stateWrite i t, Event.save]) := by
  intro p q hpq
  rcases List.append_eq_append_iff.mp hpq with ⟨r, hp, hq⟩ | ⟨r, hp, hq⟩
  · subst hp
    have hr : List.countP isWrite r + List.countP isWrite q =
        List.countP isWrite [Event.stateWrite i t, Event.save] := by
      rw [← List.countP_append, ← hq]
    simp [List.countP_cons, isWrite] at hr
    simp only [List.countP_append, hA]
    omega
  · have hsub : List.countP isWrite p + List.countP isWrite r =
        List.countP isWrite A := by
      rw [← List.countP_append, ← hp]
    omega

/-- Every iteration of the shared loop, on any fault model, any hook
setting and any state, emits a trace in which each completed-run record
is preceded by a pump deactivation. -/
theorem offBeforeWrite_processEntry (act : Actuator) (hooks : Bool)
    (now : Nat) (e : ScheduleEntry) (st : PState) :
    offBeforeWrite (processEntry act hooks now e st).1 := by
  obtain ⟨lw, ex⟩ := st
  have hpre : List.countP isWrite
      (if hooks then [Event.captureBefore e.start_time act.capOk]
       else ([] : List Event)) = 0 := by
    cases hooks <;> simp [isWrite]
  have hev1 : List.countP isWrite
      ((if hooks then [Event.captureBefore e.start_time act.capOk]
        else ([] : List Event)) ++ [Event.pumpOn, Event.sleep e.duration]) = 0 := by
    simp [List.countP_append, hpre, isWrite]
  have hev2 : List.countP isWrite
      ((if hooks then [Event.captureBefore e.start_time act.capOk]
        else ([] : List Event)) ++ [Event.pumpOn, Event.sleep e.duration]
       ++ [Event.pumpOff]
       ++ (if hooks then [Event.captureAfter e.start_time act.capOk]
           else ([] : List Event))) = 0 := by
    cases hooks <;> simp [List.countP_append, isWrite]
  have hev2off : 1 ≤ List.countP isOff
      ((if hooks then [Event.captureBefore e.start_time act.capOk]
        else ([] : List Event)) ++ [Event.pumpOn, Event.sleep e.duration]
       ++ [Event.pumpOff]
       ++ (if hooks then [Event.captureAfter e.start_time act.capOk]
           else ([] : List Event))) := by
    cases hooks <;> simp [List.countP_append, List.countP_cons, isOff]
  rcases lw with _ | _ | m
  · simp only [processEntry, getLastWatered, setLastWatered]
    split
    · exact offBeforeWrite_of_no_writes (by simp)
    · split
      · split
        · exact offBeforeWrite_of_no_writes hpre
        · split
          · exact offBeforeWrite_of_no_writes hev1
          · exact offBeforeWrite_one_write hev2 hev2off e.start_time
              (combine (dateOf now) e.start_time)
      · exact offBeforeWrite_of_no_writes (by simp)
  · simp only [processEntry, getLastWatered]
    exact offBeforeWrite_of_no_writes (by simp)
  · simp only [processEntry, getLastWatered, setLastWatered]
    split
    · exact offBeforeWrite_of_no_writes (by simp)
    · split
      · split
        · exact offBeforeWrite_of_no_writes hpre
        · split
          · exact offBeforeWrite_of_no_writes hev1
          · exact offBeforeWrite_one_write hev2 hev2off e.start_time
              (combine (dateOf now) e.start_time)
      · exact offBeforeWrite_of_no_writes (by simp)

theorem offBeforeWrite_runEntries (act : Actuator) (hooks : Bool) (now : Nat) :
    ∀ (es : List ScheduleEntry) (st : PState),
    offBeforeWrite (runEntries act hooks now es st).1 := by
  intro es
  induction es with
  | nil => intro st; exact offBeforeWrite_of_no_writes (by simp [runEntries])
  | cons e rest ih =>
    intro st
    by_cases hr : (processEntry act hooks now e st).2.2 = true
    · simp only [runEntries, hr, if_true]
      exact offBeforeWrite_processEntry act hooks now e st
    · simp only [runEntries, hr, if_false, Bool.false_eq_true]
      exact offBeforeWrite_append (offBeforeWrite_processEntry act hooks now e st)
        (ih _)

/-! ### Claim theorems -/

/-- C1: for every schedule entry, parsed watering state and instant, the
steady-state pass's treatment of that entry (`water_plants` loop body)
actuates the pump exactly when the due predicate of §3 holds for today's
occurrence: the occurrence is not in the future, any recorded completed
run predates it, and the recorded date plus `interval_days` has been
reached. -/
theorem steady_state_actuates_iff_due (now : Nat) (e : ScheduleEntry)
    (m : LastWatered) (ex : List (String × String)) :
    actuated (processEntry happy false now e ⟨.map m, ex⟩).1 = dueSpec now e m := by
  rw [show happy = (⟨true, true, true⟩ : Actuator) from rfl, processEntry_good]
  by_cases hdue : dueSpec now e m = true <;>
    simp [hdue, actuated, isOn]

/-- C2: once the loop body has successfully actuated today's occurrence
and recorded it, the due predicate on the updated state is false at the
same or any later same-day instant, so the occurrence cannot be actuated
again. -/
theorem at_most_once_per_occurrence (now now' : Nat) (e : ScheduleEntry)
    (m : LastWatered) (ex : List (String × String))
    (hdue : dueSpec now e m = true) (hday : dateOf now' = dateOf now) :
    (processEntry happy false now e ⟨.map m, ex⟩).2.1 =
      ⟨.map (lwSet m e.start_time (combine (dateOf now) e.start_time)), ex⟩ ∧
    dueSpec now' e (lwSet m e.start_time (combine (dateOf now) e.start_time)) = false ∧
    actuated (processEntry happy false now' e
      (processEntry happy false now e ⟨.map m, ex⟩).2.1).1 = false := by
  have hgood := processEntry_good true false now e m ex
  rw [hdue, if_pos rfl] at hgood
  have hst : (processEntry happy false now e ⟨.map m, ex⟩).2.1 =
      ⟨.map (lwSet m e.start_time (combine (dateOf now) e.start_time)), ex⟩ := by
    rw [show happy = (⟨true, true, true⟩ : Actuator) from rfl, hgood]
  have hnd : dueSpec now' e
      (lwSet m e.start_time (combine (dateOf now) e.start_time)) = false := by
    unfold dueSpec
    rw [hday, lwGet_lwSet_self]
    simp
  refine ⟨hst, hnd, ?_⟩
  rw [hst, show happy = (⟨true, true, true⟩ : Actuator) from rfl,
    processEntry_good, hnd]
  simp [actuated]

/-- Witness for C2 at the concrete Scenario A entry: watered at 07:05,
checked again at 12:00 the same day. -/
theorem at_most_once_per_occurrence_witness :
    dueSpec 25500 ⟨25200, 30, 1⟩ [] = true ∧ dateOf 43200 = dateOf 25500 ∧
    dueSpec 43200 ⟨25200, 30, 1⟩ (lwSet [] 25200 (combine (dateOf 25500) 25200)) = false := by
  refine ⟨by decide, by decide, ?_⟩
  exact (at_most_once_per_occurrence 25500 43200 ⟨25200, 30, 1⟩ [] []
    (by decide) (by decide)).2.1

/-- C3 counterexample: entry 07:00 due at 07:05 on an empty state; when
`pump.on()` raises, the cycle surfaces the failure without ever calling
`pump.off()`, contradicting the claimed deactivation attempt. -/
theorem activation_failure_counterexample :
    (processEntry ⟨false, true, true⟩ true 25500 ⟨25200, 30, 1⟩
        ⟨.map [], []⟩).2.2 = true ∧
    Event.pumpOff ∉ (processEntry ⟨false, true, true⟩ true 25500 ⟨25200, 30, 1⟩
        ⟨.map [], []⟩).1 := by
  decide

/-- C3 amended: when `pump.on()` fails on a due entry, the loop body
leaves the watering state untouched, records no timestamp and persists
nothing — the occurrence stays eligible for catch-up — and the exception
surfaces; however no deactivation is attempted on the way out. -/
theorem activation_failure_keeps_state (act : Actuator) (hooks : Bool)
    (now : Nat) (e : ScheduleEntry) (m : LastWatered)
    (ex : List (String × String))
    (hon : act.onOk = false) (hdue : dueSpec now e m = true) :
    (processEntry act hooks now e ⟨.map m, ex⟩).2.1 = ⟨.map m, ex⟩ ∧
    (processEntry act hooks now e ⟨.map m, ex⟩).2.2 = true ∧
    writeLog (processEntry act hooks now e ⟨.map m, ex⟩).1 = [] ∧
    Event.save ∉ (processEntry act hooks now e ⟨.map m, ex⟩).1 ∧
    Event.pumpOff ∉ (processEntry act hooks now e ⟨.map m, ex⟩).1 := by
  unfold dueSpec at hdue
  unfold processEntry getLastWatered
  cases hl : lwGet m e.start_time with
  | none =>
    rw [hl] at hdue
    simp only [Bool.and_true, decide_eq_true_eq] at hdue
    simp only [hl, hdue, hon]
    cases hooks <;> simp [writeLog]
  | some l =>
    rw [hl] at hdue
    simp only [Bool.and_eq_true, decide_eq_true_eq] at hdue
    obtain ⟨h1, h2, h3⟩ := hdue
    have hskip1 : ¬ dateOf now < dateOf l + e.interval := by omega
    have hskip2 : ¬ combine (dateOf now) e.start_time ≤ l := by omega
    simp only [hl, hskip1, hskip2, h1, hon, decide_eq_true_eq]
    cases hooks <;> simp [writeLog]

/-- Witness for C3 amended: activation failure at the due Scenario A
entry leaves the state exactly as loaded. -/
theorem activation_failure_keeps_state_witness :
    (⟨false, true, true⟩ : Actuator).onOk = false ∧
    dueSpec 25500 ⟨25200, 30, 1⟩ [] = true ∧
    (processEntry ⟨false, true, true⟩ true 25500 ⟨25200, 30, 1⟩
        ⟨.map [], []⟩).2.1 = ⟨.map [], []⟩ := by
  refine ⟨by decide, by decide, ?_⟩
  exact (activation_failure_keeps_state ⟨false, true, true⟩ true 25500
    ⟨25200, 30, 1⟩ [] [] (by decide) (by decide)).1

/-- C4: on every execution path of either call site — all fault models,
all hook settings, all states — a `stateWrite` appears in the trace only
after the pump has been turned off: in every prefix the write events
never outnumber the pump-off events. -/
theorem write_only_after_deactivation (act : Actuator) (now : Nat)
    (cfg : List ScheduleEntry) (st : PState) :
    offBeforeWrite (water_plants act now cfg st).1 ∧
    offBeforeWrite (catchUp act now cfg st).1 :=
  ⟨offBeforeWrite_runEntries act false now cfg (ensureLastWatered st),
   offBeforeWrite_runEntries act true now cfg st⟩

/-- C5: the startup catch-up pass evaluates the due predicate for every
entry against the one process-start instant, actuates exactly the due
entries serially in store order, gives each of them a single record
carrying today's nominal scheduled time — at most one actuation per entry
and only the most recent occurrence — and completes without error. -/
theorem catch_up_runs_each_due_entry_once (now : Nat)
    (es : List ScheduleEntry) (m : LastWatered) (ex : List (String × String))
    (hnd : (es.map (·.start_time)).Nodup) :
    writeLog (catchUp happy now es ⟨.map m, ex⟩).1 =
      (es.filter (fun e => dueSpec now e m)).map
        (fun e => (e.start_time, combine (dateOf now) e.start_time)) ∧
    (catchUp happy now es ⟨.map m, ex⟩).1.countP isOn =
      (es.filter (fun e => dueSpec now e m)).length ∧
    (catchUp happy now es ⟨.map m, ex⟩).2.2 = false :=
  runEntries_good true true now es m ex hnd

/-- Witness for C5: entries 07:00 (daily) and 08:00 at a 09:00 start on
day 0 with empty state are both caught up once, in store order. -/
theorem catch_up_runs_each_due_entry_once_witness :
    (([⟨25200, 30, 1⟩, ⟨28800, 20, 3⟩] : List ScheduleEntry).map
      (·.start_time)).Nodup ∧
    writeLog (catchUp happy 32400 [⟨25200, 30, 1⟩, ⟨28800, 20, 3⟩]
        ⟨.map [], []⟩).1 = [(25200, 25200), (28800, 28800)] := by
  constructor
  · decide
  · rw [(catch_up_runs_each_due_entry_once 32400
      [⟨25200, 30, 1⟩, ⟨28800, 20, 3⟩] [] [] (by decide)).1]
    decide

/-- C6 (code bug): with the state file absent — the first-run case — and
one entry whose occurrence has passed, the startup pass raises on its
very first state lookup (the record's `last_watered` is `None`) instead
of treating the entry as never watered: nothing is actuated and the
exception escapes, in both the catch-up pass and the steady-state pass.
The second conjunct shows the entry would have been due under the
never-watered reading the claim requires. -/
theorem missing_state_file_aborts :
    catchUp happy 25500 [⟨25200, 30, 1⟩] (load_state .absent) =
      ([], ⟨.null, []⟩, true) ∧
    (water_plants happy 25500 [⟨25200, 30, 1⟩] (load_state .absent)).2.2 = true ∧
    dueSpec 25500 ⟨25200, 30, 1⟩ [] = true := by
  decide

/-- C7: a successful steady-state actuation records exactly the nominal
scheduled datetime — today's date plus `start_time`, not the completion
instant — and emits the persist right after the write as the final steps
of the cycle. -/
theorem records_nominal_time_and_persists (now : Nat) (e : ScheduleEntry)
    (m : LastWatered) (ex : List (String × String))
    (hdue : dueSpec now e m = true) :
    processEntry happy false now e ⟨.map m, ex⟩ =
      ([Event.pumpOn, Event.sleep e.duration, Event.pumpOff,
        Event.stateWrite e.start_time (combine (dateOf now) e.start_time),
        Event.save],
       ⟨.map (lwSet m e.start_time (combine (dateOf now) e.start_time)), ex⟩,
       false) ∧
    lwGet (lwSet m e.start_time (combine (dateOf now) e.start_time))
        e.start_time = some (combine (dateOf now) e.start_time) := by
  constructor
  · rw [show happy = (⟨true, true, true⟩ : Actuator) from rfl,
      processEntry_good, hdue]
    simp
  · exact lwGet_lwSet_self m e.start_time _

/-- Witness for C7 at Scenario A: execution at 07:05 records 07:00. -/
theorem records_nominal_time_and_persists_witness :
    dueSpec 25500 ⟨25200, 30, 1⟩ [] = true ∧
    (processEntry happy false 25500 ⟨25200, 30, 1⟩ ⟨.map [], []⟩).2.1 =
      ⟨.map (lwSet [] 25200 (combine (dateOf 25500) 25200)), []⟩ := by
  refine ⟨by decide, ?_⟩
  rw [(records_nominal_time_and_persists 25500 ⟨25200, 30, 1⟩ [] []
    (by decide)).1]

/-- C8 counterexample: entries 07:00 and 08:00 with empty state; the job
armed for the 08:00 entry fires at 08:00 of day 1 and its invocation
also evaluates and actuates the 07:00 entry — the due predicate is not
restricted to the armed entry. -/
theorem scheduler_job_counterexample :
    writeLog (scheduledJob happy ⟨28800, 20, 1⟩ 115200
        [⟨25200, 30, 1⟩, ⟨28800, 20, 1⟩] ⟨.map [], []⟩).1 =
      [(25200, 111600), (28800, 115200)] ∧
    (25200 : Nat) ≠ 28800 := by
  decide

/-- C8 amended: a fired watering job ignores which entry armed it: its
callback is `water_plants` over the whole Schedule Store, so the due
predicate is evaluated for every entry and every due entry is actuated
within the invocation, in store order. -/
theorem scheduler_job_runs_whole_store (armed : ScheduleEntry) (now : Nat)
    (es : List ScheduleEntry) (m : LastWatered) (ex : List (String × String))
    (hnd : (es.map (·.start_time)).Nodup) :
    writeLog (scheduledJob happy armed now es ⟨.map m, ex⟩).1 =
      (es.filter (fun e => dueSpec now e m)).map
        (fun e => (e.start_time, combine (dateOf now) e.start_time)) :=
  (runEntries_good true false now es m ex hnd).1

/-- Witness for C8 amended at the counterexample input. -/
theorem scheduler_job_runs_whole_store_witness :
    (([⟨25200, 30, 1⟩, ⟨28800, 20, 1⟩] : List ScheduleEntry).map
      (·.start_time)).Nodup ∧
    writeLog (scheduledJob happy ⟨28800, 20, 1⟩ 115200
        [⟨25200, 30, 1⟩, ⟨28800, 20, 1⟩] ⟨.map [], []⟩).1 =
      [(25200, 111600), (28800, 115200)] := by
  constructor
  · decide
  · rw [scheduler_job_runs_whole_store ⟨28800, 20, 1⟩ 115200
      [⟨25200, 30, 1⟩, ⟨28800, 20, 1⟩] [] [] (by decide)]
    decide

/-- C9 counterexample: the steady-state pass actuates a due entry while
its trace contains no capture hook at all — the hook calls are absent
from that cycle. -/
theorem steady_state_no_hooks_counterexample :
    actuated (water_plants happy 25500 [⟨25200, 30, 1⟩] ⟨.map [], []⟩).1 = true ∧
    hasCapture (water_plants happy 25500 [⟨25200, 30, 1⟩] ⟨.map [], []⟩).1 = false := by
  decide

/-- C9 amended: only the startup catch-up cycle invokes the capture
hooks; there, for a due entry, the before hook precedes activation and
the after hook follows deactivation, and a capture failure (`cap = false`,
swallowed inside `capture_image`) changes nothing but the hook events:
the actuation, the record and the persist still happen and no error
surfaces.  The steady-state cycle emits no hooks. -/
theorem catch_up_hook_order_and_failure_harmless (cap : Bool) (now : Nat)
    (e : ScheduleEntry) (m : LastWatered) (ex : List (String × String))
    (hdue : dueSpec now e m = true) :
    processEntry ⟨true, true, cap⟩ true now e ⟨.map m, ex⟩ =
      ([Event.captureBefore e.start_time cap, Event.pumpOn,
        Event.sleep e.duration, Event.pumpOff,
        Event.captureAfter e.start_time cap,
        Event.stateWrite e.start_time (combine (dateOf now) e.start_time),
        Event.save],
       ⟨.map (lwSet m e.start_time (combine (dateOf now) e.start_time)), ex⟩,
       false) ∧
    hasCapture (processEntry happy false now e ⟨.map m, ex⟩).1 = false := by
  constructor
  · rw [processEntry_good, hdue]
    simp
  · rw [show happy = (⟨true, true, true⟩ : Actuator) from rfl,
      processEntry_good, hdue]
    simp [hasCapture]

/-- Witness for C9 amended: a failing capture at Scenario A still yields
the full actuation, the record and the persist. -/
theorem catch_up_hook_order_witness :
    dueSpec 25500 ⟨25200, 30, 1⟩ [] = true ∧
    processEntry ⟨true, true, false⟩ true 25500 ⟨25200, 30, 1⟩ ⟨.map [], []⟩ =
      ([Event.captureBefore 25200 false, Event.pumpOn, Event.sleep 30,
        Event.pumpOff, Event.captureAfter 25200 false,
        Event.stateWrite 25200 25200, Event.save],
       ⟨.map [(25200, 25200)], []⟩, false) := by
  refine ⟨by decide, ?_⟩
  have h := (catch_up_hook_order_and_failure_harmless false 25500
    ⟨25200, 30, 1⟩ [] [] (by decide)).1
  rw [h]
  decide

/-- C10 frame property: a successful steady-state actuation for an entry
changes the in-memory state only at that entry's `last_watered` key:
every other id's record reads back unchanged and every other field of
the state dict is untouched. -/
theorem actuation_frame (now : Nat) (e : ScheduleEntry) (m : LastWatered)
    (ex : List (String × String))
    (hact : actuated (processEntry happy false now e ⟨.map m, ex⟩).1 = true) :
    ((processEntry happy false now e ⟨.map m, ex⟩).2.1).extra = ex ∧
    ∀ k, k ≠ e.start_time →
      getLastWatered (processEntry happy false now e ⟨.map m, ex⟩).2.1 k =
        getLastWatered ⟨.map m, ex⟩ k := by
  rw [show happy = (⟨true, true, true⟩ : Actuator) from rfl] at hact ⊢
  by_cases hdue : dueSpec now e m = true
  · have hne : ∀ k, k ≠ e.start_time →
        lwGet (lwSet m e.start_time (combine (dateOf now) e.start_time)) k =
          lwGet m k := by
      intro k hk
      exact lwGet_lwSet_ne m e.start_time _ k (Ne.symm hk)
    rw [processEntry_good, hdue]
    refine ⟨by simp, ?_⟩
    intro k hk
    simp [getLastWatered, hne k hk]
  · have hf : dueSpec now e m = false := by
      revert hdue; cases dueSpec now e m <;> simp
    rw [processEntry_good, hf] at hact
    simp [actuated] at hact

/-- Witness for C10: the pre-existing record of another id and an extra
state field survive a successful actuation. -/
theorem actuation_frame_witness :
    actuated (processEntry happy false 25500 ⟨25200, 30, 1⟩
        ⟨.map [(999, 5)], [("note", "x")]⟩).1 = true ∧
    getLastWatered (processEntry happy false 25500 ⟨25200, 30, 1⟩
        ⟨.map [(999, 5)], [("note", "x")]⟩).2.1 999 =
      getLastWatered ⟨.map [(999, 5)], [("note", "x")]⟩ 999 := by
  refine ⟨by decide, ?_⟩
  exact (actuation_frame 25500 ⟨25200, 30, 1⟩ [(999, 5)] [("note", "x")]
    (by decide)).2 999 (by decide)
